import Mathlib

/-!
Verification development for the tron_worms animation (src/script5.js).

The single source file is an HTML5-canvas animation.  We shallowly embed its
entity classes (Atom, Photon, Snake, BlackHole, Portal), their per-frame
update/draw methods, and the driver's frame loop.

Modelling conventions:
* Machine floats become exact rationals (ℚ).  The opaque numeric library
  functions the script uses (Math.cos, Math.sin, Math.atan2, Math.hypot,
  Math.PI) are abstract parameters of an environment record, so every theorem
  below holds for every interpretation of them.
* `Math.random()` and `performance.now()` are modelled as two streams of
  rationals together with a cursor (`EnvSt`); each call in the source
  consumes one value, in source order.
* Canvas painting is modelled as a list of `DrawCmd` values; a draw method
  returns the commands it would emit (and, for Atom, its possibly-updated
  state, since `Atom.draw` writes `this.state`).
* Object references become indices: a Snake's `target` and a Portal's
  `partner` are `Option Nat` indices into the atom/portal arrays, whose
  membership never changes after creation (atoms and portals are never
  removed, so indices are stable).
* Fallible operations (reading `positions[0]` of an empty array and then a
  field of the result, reading a `null` partner) return `Option`; `none`
  models a thrown TypeError.
-/

/-- The `type` field of atoms and photons: `'normal'` or `'special'`. -/
inductive AtomType where
  | normal
  | special
  deriving DecidableEq, Repr

/-- Fixed interpretation of the opaque numeric parts of the script: canvas
size, `2 * Math.PI`, the `Math.random()` and `performance.now()` streams and
the trigonometric library functions. -/
structure Env where
  width : ℚ
  height : ℚ
  twoPi : ℚ
  randVals : Nat → ℚ
  nowVals : Nat → ℚ
  cosF : ℚ → ℚ
  sinF : ℚ → ℚ
  atan2F : ℚ → ℚ → ℚ
  hypotF : ℚ → ℚ → ℚ

/-- Cursor into the `Math.random()` / `performance.now()` streams. -/
structure EnvSt where
  randIdx : Nat
  nowIdx : Nat
  deriving DecidableEq, Repr

/-- One call of `Math.random()`. -/
def nextRand (env : Env) (es : EnvSt) : ℚ × EnvSt :=
  (env.randVals es.randIdx, ⟨es.randIdx + 1, es.nowIdx⟩)

/-- One call of `performance.now()`. -/
def nextNow (env : Env) (es : EnvSt) : ℚ × EnvSt :=
  (env.nowVals es.nowIdx, ⟨es.randIdx, es.nowIdx + 1⟩)

/-- Truncation toward zero, as JavaScript `%` truncates. -/
def ratTrunc (q : ℚ) : ℤ :=
  if 0 ≤ q then q.floor else -((-q).floor)

/-- JavaScript `%` (truncated remainder, sign of the dividend). -/
def jsMod (a b : ℚ) : ℚ :=
  a - b * (ratTrunc (a / b) : ℚ)

/-- One canvas paint operation, in just enough detail to compare outputs:
filled glow circles (atoms and photons), the snake's stroked polyline, the
black hole's radial gradient and the portal's ring outline. -/
inductive DrawCmd where
  | fillCircle (x y r hue alpha blur : ℚ)
  | strokePath (pts : List (ℚ × ℚ)) (lineWidth hue blur : ℚ)
  | radialGrad (x y r : ℚ)
  | ringStroke (x y r hue lineWidth : ℚ)
  deriving DecidableEq, Repr

/-- Atom: `state` is 0 = alive, 1 = disintegrating, 2 = gone. -/
structure Atom where
  position : ℚ × ℚ
  state : Nat
  startTime : ℚ
  hue : ℚ
  radius : ℚ
  type : AtomType
  deriving DecidableEq, Repr

/-- Photon particle.  (`maxLife` is the per-object field, always 100.) -/
structure Photon where
  position : ℚ × ℚ
  velocity : ℚ × ℚ
  hue : ℚ
  life : Nat
  maxLife : Nat
  size : ℚ
  type : AtomType
  deriving DecidableEq, Repr

/-- Snake: the `color` string of the source is determined by `hue` and is
not stored separately. `target` is an index into the atom array. -/
structure Snake where
  hue : ℚ
  positions : List (ℚ × ℚ)
  snakeLength : Nat
  angle : ℚ
  target : Option Nat
  deriving DecidableEq, Repr

/-- Black hole. -/
structure BlackHole where
  position : ℚ × ℚ
  radius : ℚ
  maxRadius : ℚ
  growthRate : ℚ
  deriving DecidableEq, Repr

/-- Portal; `partner` is an index into the portal array (`none` models the
`null` the constructor writes before `init` links the ring). -/
structure Portal where
  position : ℚ × ℚ
  radius : ℚ
  partner : Option Nat
  deriving DecidableEq, Repr

/-- The global entity registries (the snake list is threaded separately by
the driver functions). -/
structure World where
  atoms : List Atom
  photons : List Photon
  blackHoles : List BlackHole
  portals : List Portal
  deriving DecidableEq, Repr

/-- `new Atom(x, y)`: consumes two randoms (hue, then the normal/special
coin flip). -/
def mkAtom (env : Env) (es : EnvSt) (x y : ℚ) : Atom × EnvSt :=
  let (r1, es1) := nextRand env es
  let (r2, es2) := nextRand env es1
  ({ position := (x, y), state := 0, startTime := 0, hue := 270 + r1 * 60,
     radius := 10, type := if r2 < 1/2 then AtomType.normal else AtomType.special }, es2)

/-- `new Photon(x, y, hue, type)`: consumes one random (launch angle). -/
def mkPhoton (env : Env) (es : EnvSt) (x y hue : ℚ) (ty : AtomType) : Photon × EnvSt :=
  let (r, es1) := nextRand env es
  let angle := r * env.twoPi
  let speed : ℚ := if ty = AtomType.normal then 4 else 6
  ({ position := (x, y),
     velocity := (env.cosF angle * speed, env.sinF angle * speed),
     hue := hue, life := 0, maxLife := 100,
     size := if ty = AtomType.normal then 3 else 5, type := ty }, es1)

/-- The photon-emission loop of `Atom.disintegrate` (`photonCount` pushes). -/
def mkPhotons (env : Env) (es : EnvSt) (n : Nat) (x y hue : ℚ) (ty : AtomType) :
    List Photon × EnvSt :=
  match n with
  | 0 => ([], es)
  | n + 1 =>
    let (p, es1) := mkPhoton env es x y hue ty
    let (rest, es2) := mkPhotons env es1 n x y hue ty
    (p :: rest, es2)

/-- `new BlackHole(x, y)`. -/
def mkBlackHole (x y : ℚ) : BlackHole :=
  { position := (x, y), radius := 0, maxRadius := 50, growthRate := 1/2 }

/-- `Atom.disintegrate(t)`: record the start time, switch to state 1, emit
5 (normal) or 15 (special) photons at the atom's position with its hue and
type, and, if special, one black hole at its position.  The emitted photon
and black-hole lists are returned for the caller to append to the
registries (the source pushes onto the globals directly). -/
def Atom.disintegrate (env : Env) (es : EnvSt) (t : ℚ) (a : Atom) :
    Atom × List Photon × List BlackHole × EnvSt :=
  let photonCount := if a.type = AtomType.normal then 5 else 15
  let (phs, es1) := mkPhotons env es photonCount a.position.1 a.position.2 a.hue a.type
  let bhs := if a.type = AtomType.special then [mkBlackHole a.position.1 a.position.2] else []
  ({ a with startTime := t, state := 1 }, phs, bhs, es1)

/-- `Atom.draw(t)`: while alive, a full glow circle; while disintegrating,
a shrinking, fading circle with alpha `1 - (t - startTime)/1000` — unless
the elapsed fraction exceeds 1, in which case the atom flips to state 2
(gone) and nothing is painted.  Gone atoms paint nothing. -/
def Atom.draw (a : Atom) (t : ℚ) : Atom × List DrawCmd :=
  if a.state = 0 then
    (a, [DrawCmd.fillCircle a.position.1 a.position.2 a.radius a.hue 1 20])
  else if a.state = 1 then
    let dt := t - a.startTime
    let alpha := dt / 1000
    if alpha > 1 then
      ({ a with state := 2 }, [])
    else
      (a, [DrawCmd.fillCircle a.position.1 a.position.2 (a.radius * (1 - alpha)) a.hue
            (1 - alpha) (20 * (1 - alpha))])
  else
    (a, [])

/-- `Photon.draw()`. -/
def Photon.draw (p : Photon) : List DrawCmd :=
  [DrawCmd.fillCircle p.position.1 p.position.2 p.size p.hue 1 15]

/-- `Snake.draw()`: the whole position sequence as one stroked path. -/
def Snake.draw (s : Snake) : List DrawCmd :=
  [DrawCmd.strokePath s.positions 6 s.hue 15]

/-- `BlackHole.draw()`. -/
def BlackHole.draw (b : BlackHole) : List DrawCmd :=
  [DrawCmd.radialGrad b.position.1 b.position.2 b.radius]

/-- `Portal.draw()`. -/
def Portal.draw (p : Portal) : List DrawCmd :=
  [DrawCmd.ringStroke p.position.1 p.position.2 p.radius 300 5]

/-- The portal loop at the top of `Photon.update`: for each portal (checked
against the photon's current, possibly already teleported, position), if the
photon is within the portal's radius, move it to the partner's position plus
a small random offset.  `allPortals` is the whole registry (partner indices
point into it); the recursion walks the same list, matching `forEach`.
`none` models the TypeError of dereferencing an absent partner. -/
def photonPortalLoop (env : Env) (allPortals : List Portal) :
    List Portal → (ℚ × ℚ) → EnvSt → Option ((ℚ × ℚ) × EnvSt)
  | [], pos, es => some (pos, es)
  | portal :: rest, pos, es =>
    if env.hypotF (pos.1 - portal.position.1) (pos.2 - portal.position.2) < portal.radius then
      match portal.partner with
      | none => none
      | some j =>
        match allPortals.get? j with
        | none => none
        | some pp =>
          let (r1, es1) := nextRand env es
          let (r2, es2) := nextRand env es1
          photonPortalLoop env allPortals rest
            (pp.position.1 + (r1 - 1/2) * 10, pp.position.2 + (r2 - 1/2) * 10) es2
    else
      photonPortalLoop env allPortals rest pos es

/-- The movement part of `Photon.update`: `position += velocity`,
`velocity.y += GRAVITY` (0.05), `life++`. -/
def Photon.integrate (p : Photon) : Photon :=
  { p with
    position := (p.position.1 + p.velocity.1, p.position.2 + p.velocity.2),
    velocity := (p.velocity.1, p.velocity.2 + 1/20),
    life := p.life + 1 }

/-- The self-removal test at the end of `Photon.update`, on the post-move
photon: life beyond `maxLife`, or position outside `[0,width] × [0,height]`. -/
def photonRemoved (env : Env) (p : Photon) : Bool :=
  decide (p.maxLife < p.life ∨ p.position.1 < 0 ∨ env.width < p.position.1 ∨
    p.position.2 < 0 ∨ env.height < p.position.2)

/-- `Photon.update()`: portal teleports, then integration, then the
self-removal decision (the Bool is whether the photon splices itself out of
the live list). -/
def Photon.update (env : Env) (es : EnvSt) (p : Photon) (portals : List Portal) :
    Option (Photon × Bool × EnvSt) :=
  (photonPortalLoop env portals portals p.position es).map fun (pos1, es1) =>
    let p1 := Photon.integrate { p with position := pos1 }
    (p1, photonRemoved env p1, es1)

/-- `BlackHole.update()`: grow the radius by `growthRate` while below
`maxRadius`, then give every photon within the (new) radius a
constant-magnitude velocity impulse toward the centre. -/
def BlackHole.update (env : Env) (b : BlackHole) (photons : List Photon) :
    BlackHole × List Photon :=
  let b1 := if b.radius < b.maxRadius then { b with radius := b.radius + b.growthRate } else b
  let photons1 := photons.map fun p =>
    let dx := b1.position.1 - p.position.1
    let dy := b1.position.2 - p.position.2
    if env.hypotF dx dy < b1.radius then
      let angle := env.atan2F dy dx
      { p with velocity := (p.velocity.1 + env.cosF angle * (1/2),
                            p.velocity.2 + env.sinF angle * (1/2)) }
    else p
  (b1, photons1)

/-- `new Snake()`: consumes four randoms (hue, start x, start y, heading);
`SNAKE_LENGTH = 40` copies of the start point. -/
def mkSnake (env : Env) (es : EnvSt) : Snake × EnvSt :=
  let (r1, es1) := nextRand env es
  let (rx, es2) := nextRand env es1
  let (ry, es3) := nextRand env es2
  let startX := rx * env.width
  let startY := ry * env.height
  let (ra, es4) := nextRand env es3
  ({ hue := 180 + r1 * 60,
     positions := List.replicate 40 (startX, startY),
     snakeLength := 40,
     angle := ra * env.twoPi,
     target := none }, es4)

/-- `Snake.grow(type)`: push 5 (normal) or 15 (special) copies of the tail
position and extend `snakeLength` accordingly.  Reading the tail of an empty
position array throws, modelled by `none`. -/
def Snake.grow (s : Snake) (ty : AtomType) : Option Snake :=
  let lengthToAdd := if ty = AtomType.normal then 5 else 15
  match s.positions.getLast? with
  | none => none
  | some tail =>
    some { s with positions := s.positions ++ List.replicate lengthToAdd tail,
                  snakeLength := s.snakeLength + lengthToAdd }

/-- `Snake.shrink()`: pop up to 10 trailing segments (each pop guarded by
nonemptiness, so at most `positions.length` are removed), and floor
`snakeLength` at 10. -/
def Snake.shrink (s : Snake) : Snake :=
  { s with positions := s.positions.take (s.positions.length - 10),
           snakeLength := max 10 (s.snakeLength - 10) }

/-- The target-selection scan of `Snake.update`: over all atoms (with their
indices), keep the first strictly-nearest alive atom; if no alive atom is
seen the previous target is kept.  `minDist = none` is the initial
`Infinity`. -/
def selectTarget (env : Env) (head : ℚ × ℚ) (atoms : List Atom) (t0 : Option Nat) :
    Option Nat :=
  (go 0 atoms none t0).2
where
  go (i : Nat) : List Atom → Option ℚ → Option Nat → Option ℚ × Option Nat
    | [], minDist, tgt => (minDist, tgt)
    | a :: rest, minDist, tgt =>
      if a.state = 0 then
        let dist := env.hypotF (head.1 - a.position.1) (head.2 - a.position.2)
        if (match minDist with | none => true | some m => decide (dist < m)) then
          go (i + 1) rest (some dist) (some i)
        else
          go (i + 1) rest minDist tgt
      else
        go (i + 1) rest minDist tgt

/-- The atom-collision loop of `Snake.update`: for every alive atom whose
distance to the new head is below `radius + SNAKE_SIZE/2`, disintegrate it
(consuming one `performance.now()`), grow the snake by the atom's type and
clear the target.  Returns the updated atom list (in place), the updated
snake, and the photon/black-hole registries with the emissions appended. -/
def snakeAtomsLoop (env : Env) (newHead : ℚ × ℚ) :
    List Atom → Snake → List Photon → List BlackHole → EnvSt →
    Option (List Atom × Snake × List Photon × List BlackHole × EnvSt)
  | [], s, ph, bh, es => some ([], s, ph, bh, es)
  | a :: rest, s, ph, bh, es =>
    if a.state = 0 ∧
        env.hypotF (newHead.1 - a.position.1) (newHead.2 - a.position.2) < a.radius + 3 then
      let t := (nextNow env es).1
      let d := Atom.disintegrate env (nextNow env es).2 t a
      match Snake.grow s a.type with
      | none => none
      | some s1 =>
        (snakeAtomsLoop env newHead rest { s1 with target := none }
            (ph ++ d.2.1) (bh ++ d.2.2.1) d.2.2.2).map
          fun out => (d.1 :: out.1, out.2)
    else
      (snakeAtomsLoop env newHead rest s ph bh es).map
        fun out => (a :: out.1, out.2)

/-- The black-hole-collision loop of `Snake.update`: one `shrink()` per
black hole whose centre is within `radius + SNAKE_SIZE/2` of the new head. -/
def snakeBlackHolesLoop (env : Env) (newHead : ℚ × ℚ) : List BlackHole → Snake → Snake
  | [], s => s
  | hole :: rest, s =>
    let s1 :=
      if env.hypotF (newHead.1 - hole.position.1) (newHead.2 - hole.position.2) <
          hole.radius + 3 then
        Snake.shrink s
      else s
    snakeBlackHolesLoop env newHead rest s1

/-- The portal-collision loop of `Snake.update`: relocate the new head to
the partner portal's position plus a random offset whenever it is within
`radius + SNAKE_SIZE/2` of a portal. -/
def snakePortalLoop (env : Env) (allPortals : List Portal) :
    List Portal → (ℚ × ℚ) → EnvSt → Option ((ℚ × ℚ) × EnvSt)
  | [], pos, es => some (pos, es)
  | portal :: rest, pos, es =>
    if env.hypotF (pos.1 - portal.position.1) (pos.2 - portal.position.2) <
        portal.radius + 3 then
      match portal.partner with
      | none => none
      | some j =>
        match allPortals.get? j with
        | none => none
        | some pp =>
          let (r1, es1) := nextRand env es
          let (r2, es2) := nextRand env es1
          snakePortalLoop env allPortals rest
            (pp.position.1 + (r1 - 1/2) * 10, pp.position.2 + (r2 - 1/2) * 10) es2
    else
      snakePortalLoop env allPortals rest pos es

/-- The targeting and steering prelude of `Snake.update`: re-scan for the
nearest alive atom when the current target is absent or no longer alive,
then either steer toward an alive target (turn factor 0.05) or jitter the
heading by `(random() - 0.5) * 0.2`. -/
def snakeSteer (env : Env) (es : EnvSt) (s : Snake) (atoms : List Atom) (head : ℚ × ℚ) :
    Snake × EnvSt :=
  let tgt :=
    if (match s.target with
        | none => true
        | some i => match atoms.get? i with
                    | some a => decide (a.state ≠ 0)
                    | none => true) then
      selectTarget env head atoms s.target
    else s.target
  match (match tgt with
         | none => none
         | some i => atoms.get? i) with
  | some a =>
    if a.state = 0 then
      let dx := a.position.1 - head.1
      let dy := a.position.2 - head.2
      let angleToTarget := env.atan2F dy dx
      let angleDifference := angleToTarget - s.angle
      ({ s with target := tgt, angle := s.angle +
          env.atan2F (env.sinF angleDifference) (env.cosF angleDifference) * (1/20) }, es)
    else
      ({ s with target := tgt, angle := s.angle + ((nextRand env es).1 - 1/2) * (1/5) },
       (nextRand env es).2)
  | none =>
    ({ s with target := tgt, angle := s.angle + ((nextRand env es).1 - 1/2) * (1/5) },
       (nextRand env es).2)

/-- The new head position of `Snake.update`: advance by `SPEED = 2` along
the heading and wrap toroidally (`(v + extent) % extent`). -/
def snakeNewHead (env : Env) (s2 : Snake) (head : ℚ × ℚ) : ℚ × ℚ :=
  let nh : ℚ × ℚ := (head.1 + env.cosF s2.angle * 2, head.2 + env.sinF s2.angle * 2)
  (jsMod (nh.1 + env.width) env.width, jsMod (nh.2 + env.height) env.height)

/-- `Snake.update()`: read the head (TypeError on an empty position array,
modelled by `none`); steer; advance and wrap; run the atom, black-hole and
portal collision loops; finally unshift the new head and pop the tail once
if the sequence exceeds `snakeLength`. -/
def Snake.update (env : Env) (es : EnvSt) (s : Snake) (w : World) :
    Option (Snake × World × EnvSt) :=
  match s.positions with
  | [] => none
  | head :: _ =>
    let sA := snakeSteer env es s w.atoms head
    let newHead := snakeNewHead env sA.1 head
    match snakeAtomsLoop env newHead w.atoms sA.1 w.photons w.blackHoles sA.2 with
    | none => none
    | some (atoms', s3, photons', blackHoles', esB) =>
      let s4 := snakeBlackHolesLoop env newHead blackHoles' s3
      match snakePortalLoop env w.portals w.portals newHead esB with
      | none => none
      | some (newHead', esC) =>
        let positions1 := newHead' :: s4.positions
        let positions2 :=
          if positions1.length > s4.snakeLength then positions1.dropLast else positions1
        some ({ s4 with positions := positions2 },
              { w with atoms := atoms', photons := photons', blackHoles := blackHoles' }, esC)

/-- The photon phase of `animate`:
`photons.forEach(photon => { photon.update(); photon.draw(); })`.
ECMAScript `forEach` fixes the iteration count at the original length and
advances the index every step, testing the index against the current length;
`photons.splice(photons.indexOf(this), 1)` inside `update` removes exactly
the element at the current index (reference equality: each photon object
occurs once).  `fuel` is the remaining iteration count, `k` the index, `acc`
the photons visited so far (each visited photon is updated and then drawn
once).  Removal therefore shifts the successor into the already-passed
index. -/
def photonsForEach (env : Env) (portals : List Portal) :
    Nat → Nat → List Photon → EnvSt → List Photon →
    Option (List Photon × EnvSt × List Photon)
  | 0, _, photons, es, acc => some (photons, es, acc)
  | fuel + 1, k, photons, es, acc =>
    match photons.get? k with
    | none => photonsForEach env portals fuel (k + 1) photons es acc
    | some p =>
      match Photon.update env es p portals with
      | none => none
      | some (p', removed, es') =>
        if removed then
          photonsForEach env portals fuel (k + 1) (photons.eraseIdx k) es' (acc ++ [p])
        else
          photonsForEach env portals fuel (k + 1) (photons.set k p') es' (acc ++ [p])

/-- The whole per-frame pass over the photon registry; also returns the
list of photons that were visited (updated and drawn) during the pass. -/
def photonsPass (env : Env) (es : EnvSt) (w : World) :
    Option (World × EnvSt × List Photon) :=
  (photonsForEach env w.portals w.photons.length 0 w.photons es []).map
    fun r => ({ w with photons := r.1 }, r.2.1, r.2.2)

/-- The black-hole phase of `animate`: update (and draw) each hole in order,
threading the photon registry through the attraction passes. -/
def blackHolesPass (env : Env) : List BlackHole → List Photon → List BlackHole × List Photon
  | [], ph => ([], ph)
  | b :: rest, ph =>
    let u := BlackHole.update env b ph
    let r := blackHolesPass env rest u.2
    (u.1 :: r.1, r.2)

/-- The snake phase of `animate`: update (and draw) each snake in order,
threading the shared registries. -/
def snakesPass (env : Env) : List Snake → World → EnvSt →
    Option (List Snake × World × EnvSt)
  | [], w, es => some ([], w, es)
  | s :: rest, w, es =>
    match Snake.update env es s w with
    | none => none
    | some (s', w', es') =>
      (snakesPass env rest w' es').map fun (rest', w'', es'') => (s' :: rest', w'', es'')

/-- One `animate` frame, state effects only: black holes update (growing and
attracting photons), atoms are drawn at one shared `performance.now()`
timestamp (which can flip disintegrating atoms to gone), snakes update, then
photons update with in-loop self-removal.  Portal drawing has no state
effect. -/
def frame (env : Env) (es : EnvSt) (w : World) (snakes : List Snake) :
    Option (World × List Snake × EnvSt) :=
  let bp := blackHolesPass env w.blackHoles w.photons
  let w1 := { w with blackHoles := bp.1, photons := bp.2 }
  let t := (nextNow env es).1
  let es1 := (nextNow env es).2
  let w2 := { w1 with atoms := w1.atoms.map fun a => (Atom.draw a t).1 }
  (snakesPass env snakes w2 es1).bind fun q =>
    (photonsPass env q.2.2 q.2.1).map fun r => (r.1, q.1, r.2.1)

/-- The partner-assignment loop of `init`:
`portals[i].partner = portals[(i + 1) % portals.length]`, with the partner
reference stored as an index. `n` is the portal count, `i` the loop index. -/
def assignPartnersGo (n : Nat) : Nat → List Portal → List Portal
  | _, [] => []
  | i, p :: rest => { p with partner := some ((i + 1) % n) } :: assignPartnersGo n (i + 1) rest

/-- Partner assignment over the whole portal registry. -/
def assignPartners (ps : List Portal) : List Portal :=
  assignPartnersGo ps.length 0 ps

/-- Following one partner link from portal index `i` (0 if the reference
cannot be resolved, which never happens after `init`). -/
def portalHop (ps : List Portal) (i : Nat) : Nat :=
  (((ps.get? i).bind Portal.partner).getD 0)

/-- The atom-creation loop of `init`: `NUM_ATOMS` atoms at random positions
(two randoms for the position, two inside the constructor). -/
def mkAtoms (env : Env) : Nat → EnvSt → List Atom × EnvSt
  | 0, es => ([], es)
  | n + 1, es =>
    let (rx, es1) := nextRand env es
    let (ry, es2) := nextRand env es1
    let (a, es3) := mkAtom env es2 (rx * env.width) (ry * env.height)
    let (rest, es4) := mkAtoms env n es3
    (a :: rest, es4)

/-- The snake-creation loop of `init`. -/
def mkSnakes (env : Env) : Nat → EnvSt → List Snake × EnvSt
  | 0, es => ([], es)
  | n + 1, es =>
    let (s, es1) := mkSnake env es
    let (rest, es2) := mkSnakes env n es1
    (s :: rest, es2)

/-- The portal-creation loop of `init` (radius 20, partner still `null`). -/
def mkPortals (env : Env) : Nat → EnvSt → List Portal × EnvSt
  | 0, es => ([], es)
  | n + 1, es =>
    let (rx, es1) := nextRand env es
    let (ry, es2) := nextRand env es1
    let (rest, es3) := mkPortals env n es2
    ({ position := (rx * env.width, ry * env.height), radius := 20, partner := none } :: rest,
     es3)

/-- `init()` before the first `animate` call: 75 atoms, 5 snakes, 3 portals,
empty photon and black-hole registries, portal partners linked in a ring. -/
def initWorld (env : Env) (es : EnvSt) : World × List Snake × EnvSt :=
  let (atoms, es1) := mkAtoms env 75 es
  let (snakes, es2) := mkSnakes env 5 es1
  let (portals, es3) := mkPortals env 3 es2
  ({ atoms := atoms, photons := [], blackHoles := [], portals := assignPartners portals },
   snakes, es3)

/-- `addSnakeAt(x, y)` (the click handler): a fresh snake whose segments are
all collapsed onto the click position. -/
def addSnakeAt (env : Env) (es : EnvSt) (x y : ℚ) : Snake × EnvSt :=
  let (s, es1) := mkSnake env es
  ({ s with positions := List.replicate s.snakeLength (x, y) }, es1)

/-- Number of special atoms that are no longer alive (each such atom has
run `disintegrate` exactly once and contributed its black hole, if any). -/
def specCount (atoms : List Atom) : Nat :=
  atoms.countP fun a => decide (a.type = AtomType.special ∧ a.state ≠ 0)

/-- The black-hole/special-atom invariant of the registries. -/
def bhInv (w : World) : Prop :=
  w.blackHoles.length ≤ specCount w.atoms

/-- Every portal's partner reference resolves inside the registry (true
from `init` onward; `Portal` constructors start with `null`). -/
def portalsOK (ps : List Portal) : Prop :=
  ∀ p ∈ ps, ∃ j pp, p.partner = some j ∧ ps.get? j = some pp

/-- Snake states reachable by construction (at `init` or by click) followed
by any sequence of `update()`, `grow()` and `shrink()` calls — the
universe quantified over by the C1 claim. -/
inductive SnakeOpReach : Snake → Prop where
  | mk (env : Env) (es : EnvSt) : SnakeOpReach (mkSnake env es).1
  | click (env : Env) (es : EnvSt) (x y : ℚ) : SnakeOpReach (addSnakeAt env es x y).1
  | update (env : Env) (es : EnvSt) (w : World) {s s' : Snake} {w' : World} {es' : EnvSt} :
      SnakeOpReach s → Snake.update env es s w = some (s', w', es') → SnakeOpReach s'
  | grow (ty : AtomType) {s s' : Snake} :
      SnakeOpReach s → Snake.grow s ty = some s' → SnakeOpReach s'
  | shrink {s : Snake} : SnakeOpReach s → SnakeOpReach s.shrink

/-- Snake states reachable under the program's actual call pattern:
construction followed by `update()` calls only (`grow` and `shrink` are
invoked solely from inside `update`). -/
inductive SnakeUpdReach : Snake → Prop where
  | mk (env : Env) (es : EnvSt) : SnakeUpdReach (mkSnake env es).1
  | click (env : Env) (es : EnvSt) (x y : ℚ) : SnakeUpdReach (addSnakeAt env es x y).1
  | update (env : Env) (es : EnvSt) (w : World) {s s' : Snake} {w' : World} {es' : EnvSt} :
      SnakeUpdReach s → Snake.update env es s w = some (s', w', es') → SnakeUpdReach s'

/-- Black holes reachable from construction by `update()` calls — the
universe quantified over by the C5 claim. -/
inductive BHReach : BlackHole → Prop where
  | mk (x y : ℚ) : BHReach (mkBlackHole x y)
  | step (env : Env) (ph : List Photon) {b : BlackHole} :
      BHReach b → BHReach (BlackHole.update env b ph).1

/-- A fixed trivial interpretation of the opaque numerics, used for the
concrete witnesses and counterexamples below. -/
def env0 : Env :=
  { width := 100, height := 100, twoPi := 0,
    randVals := fun _ => 0, nowVals := fun _ => 0,
    cosF := fun _ => 0, sinF := fun _ => 0,
    atan2F := fun _ _ => 0, hypotF := fun _ _ => 0 }

/-- Stream cursor at the origin. -/
def es0 : EnvSt := ⟨0, 0⟩

/-- A concrete alive special atom. -/
def atomC4ex : Atom :=
  { position := (7, 8), state := 0, startTime := 0, hue := 300, radius := 10,
    type := AtomType.special }

/-- A concrete disintegrating atom (state 1) that started fading at t = 0. -/
def atomFadeEx : Atom :=
  { position := (5, 5), state := 1, startTime := 0, hue := 280, radius := 10,
    type := AtomType.normal }

/-- A concrete photon about to exceed its life cap. -/
def photonC2a : Photon :=
  { position := (1, 1), velocity := (0, 0), hue := 0, life := 100, maxLife := 100,
    size := 3, type := AtomType.normal }

/-- A concrete fresh photon. -/
def photonC2b : Photon :=
  { position := (1, 1), velocity := (0, 0), hue := 0, life := 0, maxLife := 100,
    size := 3, type := AtomType.normal }

/-- Registries holding exactly the two photons above. -/
def worldC2 : World :=
  { atoms := [], photons := [photonC2a, photonC2b], blackHoles := [], portals := [] }

/-- A concrete fresh photon for the C8 witness. -/
def photonC8 : Photon :=
  { position := (5, 5), velocity := (1, 1), hue := 0, life := 0, maxLife := 100,
    size := 3, type := AtomType.normal }

/-- Three concrete unlinked portals (as `init` creates them). -/
def portalsC6 : List Portal :=
  [{ position := (10, 10), radius := 20, partner := none },
   { position := (50, 50), radius := 20, partner := none },
   { position := (90, 90), radius := 20, partner := none }]

/-- Empty registries. -/
def emptyWorld : World :=
  { atoms := [], photons := [], blackHoles := [], portals := [] }

/-- Interpretation like `env0` except that the distance function returns
1000 everywhere: no distance check ever triggers, so nothing collides or
teleports. -/
def envFar : Env :=
  { width := 100, height := 100, twoPi := 0,
    randVals := fun _ => 0, nowVals := fun _ => 0,
    cosF := fun _ => 0, sinF := fun _ => 0,
    atan2F := fun _ _ => 0, hypotF := fun _ _ => 1000 }

/-- The three portals of `portalsC6` with their ring partners assigned
exactly as `init` links them (see `portalsRing_eq_assign`). -/
def portalsRing : List Portal :=
  [{ position := (10, 10), radius := 20, partner := some 1 },
   { position := (50, 50), radius := 20, partner := some 2 },
   { position := (90, 90), radius := 20, partner := some 0 }]

/-- Registries holding the fresh photon `photonC2b` together with the full
three-portal ring. -/
def worldC2far : World :=
  { atoms := [], photons := [photonC2b], blackHoles := [], portals := portalsRing }

/-- The result of one `update()` on `photonC8` under `env0`: moved by its
velocity, gravity applied, life incremented, not removed. -/
def photonC8out : Photon :=
  { position := (6, 6), velocity := (1, 21/20), hue := 0, life := 1, maxLife := 100,
    size := 3, type := AtomType.normal }

theorem mkPhotons_length (env : Env) (es : EnvSt) (n : Nat) (x y hue : ℚ) (ty : AtomType) :
    (mkPhotons env es n x y hue ty).1.length = n := by
  induction n generalizing es with
  | zero => simp [mkPhotons]
  | succ n ih => simp [mkPhotons, ih]

theorem mkPhotons_mem (env : Env) (es : EnvSt) (n : Nat) (x y hue : ℚ) (ty : AtomType) :
    ∀ p ∈ (mkPhotons env es n x y hue ty).1,
      p.position = (x, y) ∧ p.hue = hue ∧ p.type = ty := by
  induction n generalizing es with
  | zero => simp [mkPhotons]
  | succ n ih =>
    intro p hp
    simp only [mkPhotons] at hp
    rcases List.mem_cons.mp hp with h | h
    · subst h; exact ⟨rfl, rfl, rfl⟩
    · exact ih _ p h

/-- C4: `disintegrate(t)` on an alive atom records `t` as start time,
switches the state to disintegrating (1), appends exactly 5 photons for a
normal atom and 15 for a special one — all at the atom's position and
carrying its hue and category — and appends exactly one black hole at the
atom's position when the atom is special, and none when it is normal. -/
theorem atom_disintegrate_spec (env : Env) (es : EnvSt) (t : ℚ) (a : Atom)
    (_halive : a.state = 0) :
    (Atom.disintegrate env es t a).1.startTime = t ∧
    (Atom.disintegrate env es t a).1.state = 1 ∧
    (Atom.disintegrate env es t a).2.1.length =
      (if a.type = AtomType.normal then 5 else 15) ∧
    (∀ p ∈ (Atom.disintegrate env es t a).2.1,
      p.position = a.position ∧ p.hue = a.hue ∧ p.type = a.type) ∧
    (Atom.disintegrate env es t a).2.2.1 =
      (if a.type = AtomType.special then [mkBlackHole a.position.1 a.position.2] else []) := by
  rcases hmk : mkPhotons env es (if a.type = AtomType.normal then 5 else 15)
      a.position.1 a.position.2 a.hue a.type with ⟨phs, es1⟩
  have hlen := mkPhotons_length env es (if a.type = AtomType.normal then 5 else 15)
    a.position.1 a.position.2 a.hue a.type
  have hmem := mkPhotons_mem env es (if a.type = AtomType.normal then 5 else 15)
    a.position.1 a.position.2 a.hue a.type
  rw [hmk] at hlen hmem
  refine ⟨?_, ?_, ?_, ?_, ?_⟩ <;>
    simp only [Atom.disintegrate, hmk] <;>
    first
      | rfl
      | exact hlen
      | (intro p hp; simpa using hmem p hp)

/-- C4 witness: disintegrating the concrete alive special atom `atomC4ex`
yields state 1 and exactly 15 photons. -/
theorem atom_disintegrate_spec_witness :
    (Atom.disintegrate env0 es0 5 atomC4ex).1.state = 1 ∧
    (Atom.disintegrate env0 es0 5 atomC4ex).2.1.length = 15 ∧
    (Atom.disintegrate env0 es0 5 atomC4ex).2.2.1 =
      [mkBlackHole atomC4ex.position.1 atomC4ex.position.2] := by
  have h := atom_disintegrate_spec env0 es0 5 atomC4ex rfl
  refine ⟨h.2.1, ?_, ?_⟩
  · have := h.2.2.1
    simpa [atomC4ex] using this
  · have := h.2.2.2.2
    simpa [atomC4ex] using this

/-- C7: for a disintegrating atom (state 1) with start time `startTime`,
`draw(t)` paints a circle whose alpha channel is the linear function
`1 - (t - startTime)/1000` as long as the elapsed fraction is at most 1
(so the alpha decreases linearly from 1 to 0 as the fraction goes from 0
to 1); once the fraction exceeds 1 the atom flips to the gone state (2)
with no paint output; and a gone atom never paints anything. -/
theorem atom_draw_fade_spec (a : Atom) (t : ℚ) (hstate : a.state = 1) :
    ((t - a.startTime) / 1000 ≤ 1 →
      Atom.draw a t = (a, [DrawCmd.fillCircle a.position.1 a.position.2
        (a.radius * (1 - (t - a.startTime) / 1000)) a.hue
        (1 - (t - a.startTime) / 1000) (20 * (1 - (t - a.startTime) / 1000))])) ∧
    (1 < (t - a.startTime) / 1000 →
      (Atom.draw a t).1.state = 2 ∧ (Atom.draw a t).2 = []) ∧
    (∀ b : Atom, b.state = 2 → Atom.draw b t = (b, [])) := by
  refine ⟨?_, ?_, ?_⟩
  · intro hle
    rw [Atom.draw]
    rw [hstate]
    simp [not_lt.mpr hle]
  · intro hgt
    rw [Atom.draw, hstate]
    simp [hgt]
  · intro b hb
    rw [Atom.draw, hb]
    simp

/-- C7 witness: the concrete disintegrating atom `atomFadeEx` (start time
0), drawn at t = 500, paints with alpha 1/2; drawn at t = 1001 (past the
1000 ms fade), it flips to gone with no output. -/
theorem atom_draw_fade_spec_witness :
    (Atom.draw atomFadeEx 500 = (atomFadeEx, [DrawCmd.fillCircle 5 5 5 280 (1/2) 10])) ∧
    (Atom.draw atomFadeEx 1001).1.state = 2 ∧ (Atom.draw atomFadeEx 1001).2 = [] := by
  have h500 := (atom_draw_fade_spec atomFadeEx 500 rfl).1 (by norm_num [atomFadeEx])
  have h1001 := (atom_draw_fade_spec atomFadeEx 1001 rfl).2.1 (by norm_num [atomFadeEx])
  refine ⟨?_, h1001⟩
  rw [h500]
  norm_num [atomFadeEx]

/-- C3 (amended): repeated `draw` calls at the same timestamp with no
intervening `update` produce identical output, and the *second* draw leaves
the atom completely unchanged; the draw path mutates no atom field other
than `state` (position, start time, hue, radius and category are always
preserved).  The draw methods of the other entities (Photon, Snake,
BlackHole, Portal) take no state at all out of the entity: they are pure
functions to command lists by construction.  The sole mutation — the
disintegrating-to-gone flip of `state` on the first draw past the fade
time — is exhibited by the counterexample theorem. -/
theorem atom_draw_idempotent (a : Atom) (t : ℚ) :
    Atom.draw (Atom.draw a t).1 t = Atom.draw a t ∧
    (Atom.draw a t).1.position = a.position ∧
    (Atom.draw a t).1.startTime = a.startTime ∧
    (Atom.draw a t).1.hue = a.hue ∧
    (Atom.draw a t).1.radius = a.radius ∧
    (Atom.draw a t).1.type = a.type := by
  by_cases h0 : a.state = 0
  · have e1 : Atom.draw a t =
        (a, [DrawCmd.fillCircle a.position.1 a.position.2 a.radius a.hue 1 20]) := by
      rw [Atom.draw]; simp [h0]
    rw [e1]
    exact ⟨e1, rfl, rfl, rfl, rfl, rfl⟩
  · by_cases h1 : a.state = 1
    · by_cases hgt : (t - a.startTime) / 1000 > 1
      · have e1 : Atom.draw a t = ({ a with state := 2 }, []) := by
          rw [Atom.draw]; simp [h0, h1, hgt]
        have e2 : Atom.draw { a with state := 2 } t = ({ a with state := 2 }, []) := by
          rw [Atom.draw]; simp
        rw [e1]
        exact ⟨e2, rfl, rfl, rfl, rfl, rfl⟩
      · have e1 : Atom.draw a t =
            (a, [DrawCmd.fillCircle a.position.1 a.position.2
              (a.radius * (1 - (t - a.startTime) / 1000)) a.hue
              (1 - (t - a.startTime) / 1000) (20 * (1 - (t - a.startTime) / 1000))]) := by
          rw [Atom.draw]; simp [h0, h1, hgt]
        rw [e1]
        exact ⟨e1, rfl, rfl, rfl, rfl, rfl⟩
    · have e1 : Atom.draw a t = (a, []) := by
        rw [Atom.draw]; simp [h0, h1]
      rw [e1]
      exact ⟨e1, rfl, rfl, rfl, rfl, rfl⟩

/-- C3 counterexample: the claim also asserts that draw paths mutate no
entity state; but drawing the disintegrating atom `atomFadeEx` at
t = 1001 (past the 1000 ms fade) changes its `state` field from 1 to 2. -/
theorem atom_draw_mutates_state :
    atomFadeEx.state = 1 ∧ (Atom.draw atomFadeEx 1001).1.state = 2 := by
  constructor
  · rfl
  · rw [Atom.draw]
    norm_num [atomFadeEx]

theorem blackHole_update_fst (env : Env) (b : BlackHole) (ph : List Photon) :
    (BlackHole.update env b ph).1 =
      (if b.radius < b.maxRadius then { b with radius := b.radius + b.growthRate } else b) :=
  rfl

theorem bhReach_inv {b : BlackHole} (h : BHReach b) :
    b.maxRadius = 50 ∧ b.growthRate = 1/2 ∧ ∃ k : Nat, k ≤ 100 ∧ b.radius = (k : ℚ) / 2 := by
  induction h with
  | mk x y => exact ⟨rfl, rfl, 0, by norm_num, by norm_num [mkBlackHole]⟩
  | step env ph hb ih =>
    obtain ⟨hmax, hrate, k, hk, hrad⟩ := ih
    rename_i b'
    rw [blackHole_update_fst]
    by_cases hlt : b'.radius < b'.maxRadius
    · rw [if_pos hlt]
      refine ⟨hmax, hrate, k + 1, ?_, ?_⟩
      · have hq : (k : ℚ) / 2 < 50 := by rw [← hrad, ← hmax]; exact hlt
        have hk100 : (k : ℚ) < 100 := by linarith
        have : k < 100 := by exact_mod_cast hk100
        omega
      · show b'.radius + b'.growthRate = ((k + 1 : Nat) : ℚ) / 2
        rw [hrad, hrate]
        push_cast
        ring
    · rw [if_neg hlt]
      exact ⟨hmax, hrate, k, hk, hrad⟩

/-- C5: for every black hole reachable from construction by `update()`
calls, the radius never exceeds the configured maximum, and each further
update either leaves the radius unchanged or increases it by exactly the
fixed growth rate (so the radius is non-decreasing across any update
sequence). -/
theorem blackHole_radius_spec (b : BlackHole) (hreach : BHReach b) :
    b.radius ≤ b.maxRadius ∧
    ∀ (env : Env) (ph : List Photon),
      b.radius ≤ (BlackHole.update env b ph).1.radius ∧
      ((BlackHole.update env b ph).1.radius = b.radius ∨
        (BlackHole.update env b ph).1.radius = b.radius + b.growthRate) := by
  obtain ⟨hmax, hrate, k, hk, hrad⟩ := bhReach_inv hreach
  constructor
  · rw [hmax, hrad]
    have : (k : ℚ) ≤ 100 := by exact_mod_cast hk
    linarith
  · intro env ph
    rw [blackHole_update_fst]
    by_cases hlt : b.radius < b.maxRadius
    · rw [if_pos hlt]
      constructor
      · show b.radius ≤ b.radius + b.growthRate
        rw [hrate]; linarith
      · right; rfl
    · rw [if_neg hlt]
      exact ⟨le_refl _, Or.inl rfl⟩

/-- C5 witness: the freshly constructed black hole at the origin satisfies
the radius bound, and one update does not decrease its radius. -/
theorem blackHole_radius_spec_witness :
    (mkBlackHole 0 0).radius ≤ (mkBlackHole 0 0).maxRadius ∧
    (mkBlackHole 0 0).radius ≤ (BlackHole.update env0 (mkBlackHole 0 0) []).1.radius := by
  have h := blackHole_radius_spec (mkBlackHole 0 0) (BHReach.mk 0 0)
  exact ⟨h.1, (h.2 env0 []).1⟩

theorem assignPartnersGo_getElem? (n : Nat) (ps : List Portal) :
    ∀ (i k : Nat),
      (assignPartnersGo n i ps)[k]? =
        ps[k]?.map fun p => { p with partner := some ((i + k + 1) % n) } := by
  induction ps with
  | nil => intro i k; simp [assignPartnersGo]
  | cons p rest ih =>
    intro i k
    cases k with
    | zero => simp [assignPartnersGo]
    | succ k =>
      have harith : i + 1 + k + 1 = i + (k + 1) + 1 := by omega
      simp [assignPartnersGo, ih (i + 1) k, harith]

theorem portalHop_assign (ps : List Portal) (i : Nat) (hi : i < ps.length) :
    portalHop (assignPartners ps) i = (i + 1) % ps.length := by
  cases hg : ps[i]? with
  | none =>
    rw [List.getElem?_eq_none_iff] at hg
    omega
  | some p =>
    simp [portalHop, assignPartners, assignPartnersGo_getElem?, hg]

theorem portalHop_assign_iterate (ps : List Portal) (hn : 0 < ps.length) :
    ∀ (k i : Nat), i < ps.length →
      (portalHop (assignPartners ps))^[k] i = (i + k) % ps.length := by
  intro k
  induction k with
  | zero =>
    intro i hi
    simp [Nat.mod_eq_of_lt hi]
  | succ k ih =>
    intro i hi
    rw [Function.iterate_succ_apply, portalHop_assign ps i hi,
      ih _ (Nat.mod_lt _ hn), Nat.mod_add_mod]
    congr 1
    omega

theorem mkPortals_length (env : Env) : ∀ (n : Nat) (es : EnvSt),
    (mkPortals env n es).1.length = n := by
  intro n
  induction n with
  | zero => intro es; simp [mkPortals]
  | succ n ih =>
    intro es
    simp only [mkPortals, nextRand]
    rcases hX : mkPortals env n ⟨es.randIdx + 1 + 1, es.nowIdx⟩ with ⟨rest, es3⟩
    have hlen := ih ⟨es.randIdx + 1 + 1, es.nowIdx⟩
    rw [hX] at hlen
    simp [hX, hlen]

/-- C6: after partner assignment, every portal holds exactly one partner
reference, namely portal `(i + 1) % count`; following the partner link
`count` times from any portal returns to that portal; no portal is its own
partner when the count exceeds 1; and `init` performs exactly this
assignment over its 3 freshly created portals. -/
theorem portal_ring_spec (ps : List Portal) (hn : 0 < ps.length) :
    (∀ i, i < ps.length →
      ((assignPartners ps).get? i).bind Portal.partner = some ((i + 1) % ps.length)) ∧
    (∀ i, i < ps.length → (portalHop (assignPartners ps))^[ps.length] i = i) ∧
    (1 < ps.length → ∀ i, i < ps.length → portalHop (assignPartners ps) i ≠ i) ∧
    (∀ (env : Env) (es : EnvSt), ∃ ps0,
      (initWorld env es).1.portals = assignPartners ps0 ∧ ps0.length = 3) := by
  refine ⟨?_, ?_, ?_, ?_⟩
  · intro i hi
    cases hg : ps[i]? with
    | none =>
      rw [List.getElem?_eq_none_iff] at hg
      omega
    | some p =>
      simp [assignPartners, assignPartnersGo_getElem?, hg]
  · intro i hi
    rw [portalHop_assign_iterate ps hn ps.length i hi, Nat.add_mod_right,
      Nat.mod_eq_of_lt hi]
  · intro h1 i hi heq
    rw [portalHop_assign ps i hi] at heq
    rcases Nat.lt_or_ge (i + 1) ps.length with hlt | hge
    · rw [Nat.mod_eq_of_lt hlt] at heq
      omega
    · have hie : i + 1 = ps.length := by omega
      rw [hie, Nat.mod_self] at heq
      omega
  · intro env es
    rcases hA : mkAtoms env 75 es with ⟨atoms, es1⟩
    rcases hS : mkSnakes env 5 es1 with ⟨snakes, es2⟩
    rcases hP : mkPortals env 3 es2 with ⟨portals, es3⟩
    refine ⟨portals, ?_, ?_⟩
    · simp [initWorld, hA, hS, hP]
    · have hlen := mkPortals_length env 3 es2
      rw [hP] at hlen
      exact hlen

/-- C6 witness: on the three concrete portals `portalsC6`, the assigned
ring returns to portal 0 after 3 hops and portal 0 is not its own
partner. -/
theorem portal_ring_spec_witness :
    (portalHop (assignPartners portalsC6))^[3] 0 = 0 ∧
    portalHop (assignPartners portalsC6) 0 ≠ 0 := by
  have h := portal_ring_spec portalsC6 (by simp [portalsC6])
  exact ⟨h.2.1 0 (by simp [portalsC6]), h.2.2.1 (by simp [portalsC6]) 0 (by simp [portalsC6])⟩

/-- C8: whenever `Photon.update` completes on a photon whose life cap field
is the constructed value 100, the life counter is incremented by exactly
one (hence non-decreasing across updates), and the photon removes itself
from the live collection exactly when, after this update's movement, its
life exceeds 100 or its position lies outside `[0,width] × [0,height]`. -/
theorem photon_update_spec (env : Env) (es : EnvSt) (p : Photon) (portals : List Portal)
    (out : Photon × Bool × EnvSt) (hmax : p.maxLife = 100)
    (h : Photon.update env es p portals = some out) :
    out.1.life = p.life + 1 ∧
    (out.2.1 = true ↔ (100 < out.1.life ∨ out.1.position.1 < 0 ∨
      env.width < out.1.position.1 ∨ out.1.position.2 < 0 ∨
      env.height < out.1.position.2)) := by
  rcases hl : photonPortalLoop env portals portals p.position es with _ | ⟨pos1, es1⟩
  · rw [Photon.update, hl] at h
    simp at h
  · rw [Photon.update, hl] at h
    simp only [Option.map_some'] at h
    have h2 := Option.some.inj h
    subst h2
    constructor
    · simp [Photon.integrate]
    · simp only [photonRemoved, Photon.integrate, decide_eq_true_eq, hmax]

/-- C8 witness: one update of the concrete photon `photonC8` (no portals)
moves it by its velocity, increments life from 0 to 1 and does not remove
it. -/
theorem photon_update_spec_witness :
    Photon.update env0 es0 photonC8 [] = some (photonC8out, false, es0) ∧
    photonC8out.life = photonC8.life + 1 := by
  have heq : Photon.update env0 es0 photonC8 [] = some (photonC8out, false, es0) := by
    rw [Photon.update]
    have hloop : photonPortalLoop env0 [] [] photonC8.position es0 =
        some (photonC8.position, es0) := rfl
    rw [hloop]
    simp only [Option.map_some']
    norm_num [Photon.integrate, photonRemoved, photonC8, photonC8out, env0, es0]
  exact ⟨heq,
    (photon_update_spec env0 es0 photonC8 [] (photonC8out, false, es0) rfl heq).1⟩

theorem Snake.grow_total {s : Snake} (hne : s.positions ≠ []) (ty : AtomType) :
    ∃ s', Snake.grow s ty = some s' := by
  rw [Snake.grow]
  cases hg : s.positions.getLast? with
  | none => exact absurd (List.getLast?_eq_none_iff.mp hg) hne
  | some tail => exact ⟨_, rfl⟩

theorem Snake.grow_eq_some {s : Snake} {ty : AtomType} {s' : Snake}
    (h : Snake.grow s ty = some s') :
    s'.snakeLength = s.snakeLength + (if ty = AtomType.normal then 5 else 15) ∧
    s'.positions.length = s.positions.length + (if ty = AtomType.normal then 5 else 15) ∧
    s'.positions ≠ [] := by
  rw [Snake.grow] at h
  cases hg : s.positions.getLast? with
  | none => rw [hg] at h; simp at h
  | some tail =>
    rw [hg] at h
    simp only [Option.some.injEq] at h
    subst h
    have hne : s.positions ≠ [] := by
      intro hnil
      rw [hnil] at hg
      simp at hg
    refine ⟨rfl, by simp, ?_⟩
    simp [hne]

theorem Snake.shrink_snakeLength (s : Snake) : 10 ≤ (Snake.shrink s).snakeLength :=
  le_max_left _ _

theorem Snake.shrink_positions_length (s : Snake) :
    (Snake.shrink s).positions.length = s.positions.length - 10 := by
  simp [Snake.shrink]

theorem snakeSteer_preserves (env : Env) (es : EnvSt) (s : Snake) (atoms : List Atom)
    (head : ℚ × ℚ) :
    (snakeSteer env es s atoms head).1.positions = s.positions ∧
    (snakeSteer env es s atoms head).1.snakeLength = s.snakeLength := by
  rw [snakeSteer]
  split
  · split
    · exact ⟨rfl, rfl⟩
    · exact ⟨rfl, rfl⟩
  · exact ⟨rfl, rfl⟩

theorem snakeBlackHolesLoop_snakeLength (env : Env) (newHead : ℚ × ℚ) :
    ∀ (bhs : List BlackHole) (s : Snake), 10 ≤ s.snakeLength →
      10 ≤ (snakeBlackHolesLoop env newHead bhs s).snakeLength := by
  intro bhs
  induction bhs with
  | nil => intro s h; simpa [snakeBlackHolesLoop] using h
  | cons hole rest ih =>
    intro s h
    rw [snakeBlackHolesLoop]
    apply ih
    split
    · exact Snake.shrink_snakeLength s
    · exact h

theorem snakePortalLoop_total (env : Env) (allPortals : List Portal) :
    ∀ (ps : List Portal) (pos : ℚ × ℚ) (es : EnvSt),
      (∀ p ∈ ps, ∃ j pp, p.partner = some j ∧ allPortals.get? j = some pp) →
      ∃ r, snakePortalLoop env allPortals ps pos es = some r := by
  intro ps
  induction ps with
  | nil => intro pos es _; exact ⟨(pos, es), rfl⟩
  | cons portal rest ih =>
    intro pos es hok
    rw [snakePortalLoop]
    split
    · obtain ⟨j, pp, hj, hpp⟩ := hok portal (List.mem_cons_self _ _)
      rw [hj]
      dsimp only
      rw [hpp]
      exact ih _ _ (fun p hp => hok p (List.mem_cons_of_mem _ hp))
    · exact ih _ _ (fun p hp => hok p (List.mem_cons_of_mem _ hp))

theorem snakeAtomsLoop_snakeLength (env : Env) (newHead : ℚ × ℚ) :
    ∀ (atoms : List Atom) (s : Snake) (ph : List Photon) (bh : List BlackHole) (es : EnvSt)
      (out : List Atom × Snake × List Photon × List BlackHole × EnvSt),
      snakeAtomsLoop env newHead atoms s ph bh es = some out →
      s.snakeLength ≤ out.2.1.snakeLength := by
  intro atoms
  induction atoms with
  | nil =>
    intro s ph bh es out h
    rw [snakeAtomsLoop] at h
    simp only [Option.some.injEq] at h
    rw [← h]
  | cons a rest ih =>
    intro s ph bh es out h
    rw [snakeAtomsLoop] at h
    split at h
    · cases hg : Snake.grow s a.type with
      | none => rw [hg] at h; simp at h
      | some s1 =>
        rw [hg] at h
        simp only [Option.map_eq_some'] at h
        obtain ⟨out', hrec, hout⟩ := h
        have hle := ih _ _ _ _ _ hrec
        have hgs := Snake.grow_eq_some hg
        have h1 : s.snakeLength ≤ s1.snakeLength := by rw [hgs.1]; omega
        calc s.snakeLength ≤ s1.snakeLength := h1
          _ ≤ out'.2.1.snakeLength := hle
          _ = out.2.1.snakeLength := by rw [← hout]
    · simp only [Option.map_eq_some'] at h
      obtain ⟨out', hrec, hout⟩ := h
      have hle := ih _ _ _ _ _ hrec
      calc s.snakeLength ≤ out'.2.1.snakeLength := hle
        _ = out.2.1.snakeLength := by rw [← hout]

theorem snakeAtomsLoop_total (env : Env) (newHead : ℚ × ℚ) :
    ∀ (atoms : List Atom) (s : Snake) (ph : List Photon) (bh : List BlackHole) (es : EnvSt),
      s.positions ≠ [] →
      ∃ out, snakeAtomsLoop env newHead atoms s ph bh es = some out ∧
        out.2.1.positions ≠ [] := by
  intro atoms
  induction atoms with
  | nil =>
    intro s ph bh es hne
    exact ⟨([], s, ph, bh, es), rfl, hne⟩
  | cons a rest ih =>
    intro s ph bh es hne
    rw [snakeAtomsLoop]
    split
    · obtain ⟨s1, hg⟩ := Snake.grow_total hne a.type
      have hgs := Snake.grow_eq_some hg
      rw [hg]
      dsimp only
      generalize Atom.disintegrate env (nextNow env es).2 (nextNow env es).1 a = D
      obtain ⟨out', hrec, hne'⟩ :=
        ih { s1 with target := none } (ph ++ D.2.1) (bh ++ D.2.2.1) D.2.2.2 hgs.2.2
      rw [hrec]
      exact ⟨(D.1 :: out'.1, out'.2), rfl, hne'⟩
    · obtain ⟨out', hrec, hne'⟩ := ih s ph bh es hne
      rw [hrec]
      exact ⟨(a :: out'.1, out'.2), rfl, hne'⟩

theorem snake_update_props {env : Env} {es : EnvSt} {s : Snake} {w : World}
    {s' : Snake} {w' : World} {es' : EnvSt}
    (h : Snake.update env es s w = some (s', w', es')) (hlen : 10 ≤ s.snakeLength) :
    10 ≤ s'.snakeLength ∧ 1 ≤ s'.positions.length := by
  rw [Snake.update] at h
  cases hpos : s.positions with
  | nil => rw [hpos] at h; simp at h
  | cons head tail =>
    rw [hpos] at h
    dsimp only at h
    cases hA : snakeAtomsLoop env (snakeNewHead env (snakeSteer env es s w.atoms head).1 head)
        w.atoms (snakeSteer env es s w.atoms head).1 w.photons w.blackHoles
        (snakeSteer env es s w.atoms head).2 with
    | none => rw [hA] at h; simp at h
    | some q =>
      obtain ⟨atoms', s3, photons', blackHoles', esB⟩ := q
      rw [hA] at h
      dsimp only at h
      cases hP : snakePortalLoop env w.portals w.portals
          (snakeNewHead env (snakeSteer env es s w.atoms head).1 head) esB with
      | none => rw [hP] at h; simp at h
      | some r =>
        obtain ⟨newHead', esC⟩ := r
        rw [hP] at h
        dsimp only at h
        simp only [Option.some.injEq, Prod.mk.injEq] at h
        obtain ⟨h1, _h2, _h3⟩ := h
        have hsteer : (snakeSteer env es s w.atoms head).1.snakeLength = s.snakeLength :=
          (snakeSteer_preserves env es s w.atoms head).2
        have hmono := snakeAtomsLoop_snakeLength env
          (snakeNewHead env (snakeSteer env es s w.atoms head).1 head) w.atoms
          (snakeSteer env es s w.atoms head).1 w.photons w.blackHoles
          (snakeSteer env es s w.atoms head).2 _ hA
        have h3le : 10 ≤ s3.snakeLength := by
          have : s.snakeLength ≤ s3.snakeLength := by rw [← hsteer]; exact hmono
          omega
        have h4le : 10 ≤ (snakeBlackHolesLoop env
            (snakeNewHead env (snakeSteer env es s w.atoms head).1 head)
            blackHoles' s3).snakeLength :=
          snakeBlackHolesLoop_snakeLength env _ blackHoles' s3 h3le
        subst h1
        constructor
        · exact h4le
        · by_cases hc : (newHead' :: (snakeBlackHolesLoop env
              (snakeNewHead env (snakeSteer env es s w.atoms head).1 head)
              blackHoles' s3).positions).length >
              (snakeBlackHolesLoop env
                (snakeNewHead env (snakeSteer env es s w.atoms head).1 head)
                blackHoles' s3).snakeLength
          · simp only [if_pos hc]
            simp only [List.length_dropLast, List.length_cons] at hc ⊢
            omega
          · simp only [if_neg hc]
            simp only [List.length_cons]
            omega

theorem snake_update_total {env : Env} {es : EnvSt} {s : Snake} {w : World}
    (hne : s.positions ≠ []) (hports : portalsOK w.portals) :
    ∃ r, Snake.update env es s w = some r := by
  rw [Snake.update]
  cases hpos : s.positions with
  | nil => exact absurd hpos hne
  | cons head tail =>
    dsimp only
    have hne1 : (snakeSteer env es s w.atoms head).1.positions ≠ [] := by
      rw [(snakeSteer_preserves env es s w.atoms head).1]
      exact hne
    obtain ⟨out, hA, _⟩ := snakeAtomsLoop_total env
      (snakeNewHead env (snakeSteer env es s w.atoms head).1 head) w.atoms
      (snakeSteer env es s w.atoms head).1 w.photons w.blackHoles
      (snakeSteer env es s w.atoms head).2 hne1
    obtain ⟨atoms', s3, photons', blackHoles', esB⟩ := out
    rw [hA]
    dsimp only
    obtain ⟨r, hP⟩ := snakePortalLoop_total env w.portals w.portals
      (snakeNewHead env (snakeSteer env es s w.atoms head).1 head) esB hports
    obtain ⟨newHead', esC⟩ := r
    rw [hP]
    exact ⟨_, rfl⟩

/-- C1 (amended): the invariant "length at least 10" holds for the snake's
*desired length* field `snakeLength` (the quantity `shrink()` floors at 10),
at every point reachable by construction and any sequence of `update()`,
`grow()` and `shrink()` calls.  It does *not* hold for the position-sequence
length: `shrink()` pops up to 10 position segments unconditionally, so the
position sequence can drop below 10 — the counterexample drives it to 0
with four consecutive `shrink()` calls from a fresh snake. -/
theorem snake_snakeLength_ge_ten (s : Snake) (h : SnakeOpReach s) : 10 ≤ s.snakeLength := by
  induction h with
  | mk env es => norm_num [mkSnake, nextRand]
  | click env es x y => norm_num [addSnakeAt, mkSnake, nextRand]
  | update env es w hs hupd ih => exact (snake_update_props hupd ih).1
  | grow ty hs hg ih =>
    rw [(Snake.grow_eq_some hg).1]
    omega
  | shrink hs ih => exact Snake.shrink_snakeLength _

/-- C1 witness: a freshly constructed snake is reachable and satisfies the
amended bound. -/
theorem snake_snakeLength_ge_ten_witness : 10 ≤ (mkSnake env0 es0).1.snakeLength :=
  snake_snakeLength_ge_ten _ (SnakeOpReach.mk env0 es0)

/-- C1 counterexample: four `shrink()` calls after construction — a state
the claim explicitly ranges over — leave the position sequence empty, so
its length is not at least 10 (`snakeLength` itself stays at 10). -/
theorem snake_positions_below_ten :
    SnakeOpReach ((((mkSnake env0 es0).1.shrink).shrink).shrink).shrink ∧
    (((((mkSnake env0 es0).1.shrink).shrink).shrink).shrink).positions.length = 0 := by
  constructor
  · exact .shrink (.shrink (.shrink (.shrink (.mk env0 es0))))
  · have l0 : (mkSnake env0 es0).1.positions.length = 40 := by
      norm_num [mkSnake, nextRand]
    have l1 := Snake.shrink_positions_length (mkSnake env0 es0).1
    have l2 := Snake.shrink_positions_length (mkSnake env0 es0).1.shrink
    have l3 := Snake.shrink_positions_length ((mkSnake env0 es0).1.shrink).shrink
    have l4 := Snake.shrink_positions_length (((mkSnake env0 es0).1.shrink).shrink).shrink
    omega

/-- C9: the snake constructor creates 40 position segments, and for every
snake reachable under the program's actual call pattern (construction at
init or click, then updates), the position sequence is non-empty — so the
head read `positions[0]` at the top of `update()` never hits an empty
list — and, whenever every portal's partner reference resolves (true from
init onward), `update()` completes and leaves at least one segment. -/
theorem snake_update_head_safe :
    (∀ (env : Env) (es : EnvSt), (mkSnake env es).1.positions.length = 40) ∧
    (∀ s, SnakeUpdReach s → s.positions ≠ [] ∧
      (∀ (env : Env) (es : EnvSt) (w : World), portalsOK w.portals →
        ∃ s' w' es', Snake.update env es s w = some (s', w', es') ∧
          1 ≤ s'.positions.length)) := by
  have key : ∀ s, SnakeUpdReach s → s.positions ≠ [] ∧ 10 ≤ s.snakeLength := by
    intro s h
    induction h with
    | mk env es =>
      constructor
      · have : (mkSnake env es).1.positions.length = 40 := by norm_num [mkSnake, nextRand]
        exact List.length_pos.mp (by omega)
      · norm_num [mkSnake, nextRand]
    | click env es x y =>
      constructor
      · have : (addSnakeAt env es x y).1.positions.length = 40 := by
          norm_num [addSnakeAt, mkSnake, nextRand]
        exact List.length_pos.mp (by omega)
      · norm_num [addSnakeAt, mkSnake, nextRand]
    | update env es w hs hupd ih =>
      have hp := snake_update_props hupd ih.2
      exact ⟨List.length_pos.mp (by omega), hp.1⟩
  constructor
  · intro env es
    norm_num [mkSnake, nextRand]
  · intro s h
    refine ⟨(key s h).1, ?_⟩
    intro env es w hports
    obtain ⟨r, hr⟩ := snake_update_total (key s h).1 hports
    obtain ⟨s', w', es'⟩ := r
    have hp := snake_update_props hr (key s h).2
    exact ⟨s', w', es', hr, hp.2⟩

/-- C9 witness: the concrete fresh snake has 40 segments, a non-empty
position sequence, and its update on empty registries completes. -/
theorem snake_update_head_safe_witness :
    (mkSnake env0 es0).1.positions.length = 40 ∧
    (Snake.update env0 es0 (mkSnake env0 es0).1 emptyWorld).isSome = true := by
  have h := snake_update_head_safe
  refine ⟨h.1 env0 es0, ?_⟩
  obtain ⟨s', w', es', hr, _⟩ :=
    (h.2 _ (SnakeUpdReach.mk env0 es0)).2 env0 es0 emptyWorld
      (by intro p hp; simp [emptyWorld] at hp)
  rw [hr]
  rfl

theorem photon_update_no_portals (env : Env) (es : EnvSt) (p : Photon) :
    Photon.update env es p [] =
      some (Photon.integrate p, photonRemoved env (Photon.integrate p), es) := rfl

theorem portalsRing_eq_assign : assignPartners portalsC6 = portalsRing := rfl

theorem photonsForEach_length_le (env : Env) (portals : List Portal) :
    ∀ (fuel k : Nat) (photons : List Photon) (es : EnvSt) (acc : List Photon)
      (out : List Photon × EnvSt × List Photon),
      photonsForEach env portals fuel k photons es acc = some out →
      out.1.length ≤ photons.length := by
  intro fuel
  induction fuel with
  | zero =>
    intro k photons es acc out h
    rw [photonsForEach] at h
    simp only [Option.some.injEq] at h
    rw [← h]
  | succ fuel ih =>
    intro k photons es acc out h
    rw [photonsForEach] at h
    cases hg : photons.get? k with
    | none =>
      rw [hg] at h
      exact ih _ _ _ _ _ h
    | some p =>
      rw [hg] at h
      dsimp only at h
      cases hu : Photon.update env es p portals with
      | none => rw [hu] at h; simp at h
      | some u =>
        obtain ⟨p', removed, es1⟩ := u
        rw [hu] at h
        dsimp only at h
        have hk : k < photons.length := by
          by_contra hk2
          push_neg at hk2
          rw [List.get?_eq_none.mpr hk2] at hg
          simp at hg
        by_cases hrm : removed = true
        · rw [if_pos hrm] at h
          have hrec := ih _ _ _ _ _ h
          have herase : (photons.eraseIdx k).length = photons.length - 1 := by
            rw [List.length_eraseIdx]
            simp [hk]
          omega
        · rw [if_neg hrm] at h
          have hrec := ih _ _ _ _ _ h
          rw [List.length_set] at hrec
          exact hrec

theorem photonsForEach_no_removal_acc (env : Env) (portals : List Portal) :
    ∀ (fuel k : Nat) (photons : List Photon) (es : EnvSt) (acc : List Photon)
      (out : List Photon × EnvSt × List Photon),
      photonsForEach env portals fuel k photons es acc = some out →
      fuel + k = photons.length →
      out.1.length = photons.length →
      out.2.2 = acc ++ photons.drop k := by
  intro fuel
  induction fuel with
  | zero =>
    intro k photons es acc out h hinv hlen
    rw [photonsForEach] at h
    simp only [Option.some.injEq] at h
    rw [← h]
    rw [List.drop_eq_nil_of_le (by omega)]
    simp
  | succ fuel ih =>
    intro k photons es acc out h hinv hlen
    have hk : k < photons.length := by omega
    rw [photonsForEach] at h
    have hg : photons.get? k = some photons[k] := by
      simp [List.get?_eq_getElem?, List.getElem?_eq_getElem hk]
    rw [hg] at h
    dsimp only at h
    cases hu : Photon.update env es photons[k] portals with
    | none => rw [hu] at h; simp at h
    | some u =>
      obtain ⟨p', removed, es1⟩ := u
      rw [hu] at h
      dsimp only at h
      by_cases hrm : removed = true
      · rw [if_pos hrm] at h
        have hle := photonsForEach_length_le env portals _ _ _ _ _ _ h
        have herase : (photons.eraseIdx k).length = photons.length - 1 := by
          rw [List.length_eraseIdx]
          simp [hk]
        omega
      · rw [if_neg hrm] at h
        have hrec := ih _ _ _ _ _ h (by simp; omega) (by rw [List.length_set]; exact hlen)
        rw [hrec]
        have hds : (photons.set k p').drop (k + 1) = photons.drop (k + 1) := by
          simp [List.drop_set]
        rw [hds, List.drop_eq_getElem_cons hk]
        simp

/-- C2 (amended): the per-frame pass over the photon registry
(`photons.forEach` with in-loop `splice` self-removal) returns, in its
third component, the photons on which `update()` and then `draw()` were
invoked, in visit order.  Self-removal is the only way the pass shrinks the
collection, so "no photon was removed this frame" is exactly "the
collection keeps its length".  Whenever the pass completes with the
collection length unchanged, the visited list is the original collection
itself: every photon — portals and all — is updated and drawn exactly
once, in order; none is skipped and none is processed twice.  When a
photon does remove itself, the splice shifts its successor onto the
already-visited index and that successor is skipped for the frame (it
stays in the collection, neither updated nor drawn), as the counterexample
shows — removal corrupts the iteration in exactly this way. -/
theorem photons_pass_no_removal_exact (env : Env) (es : EnvSt) (w : World)
    (out : World × EnvSt × List Photon)
    (h : photonsPass env es w = some out)
    (hlen : out.1.photons.length = w.photons.length) :
    out.2.2 = w.photons := by
  rw [photonsPass] at h
  cases hF : photonsForEach env w.portals w.photons.length 0 w.photons es [] with
  | none => rw [hF] at h; simp at h
  | some r =>
    rw [hF] at h
    simp only [Option.map_some', Option.some.injEq] at h
    subst h
    have hl : r.1.length = w.photons.length := hlen
    have hacc := photonsForEach_no_removal_acc env w.portals w.photons.length 0 w.photons es
      [] r hF (by omega) hl
    show r.2.2 = w.photons
    rw [hacc]
    simp

/-- C2 witness: with the full three-portal ring present and a photon far
from every portal (the distance function returns 1000 everywhere), the
pass completes, removes nothing, and the visited list is exactly the
photon collection. -/
theorem photons_pass_no_removal_exact_witness :
    photonsPass envFar es0 worldC2far =
      some ({ worldC2far with photons := [Photon.integrate photonC2b] }, es0, [photonC2b]) ∧
    [photonC2b] = worldC2far.photons := by
  have hloop : photonPortalLoop envFar portalsRing portalsRing photonC2b.position es0 =
      some (photonC2b.position, es0) := by
    norm_num [photonPortalLoop, portalsRing, envFar, photonC2b]
  have hupd : Photon.update envFar es0 photonC2b portalsRing =
      some (Photon.integrate photonC2b, false, es0) := by
    rw [Photon.update, hloop]
    simp only [Option.map_some']
    norm_num [photonRemoved, Photon.integrate, photonC2b, envFar]
  have hpass : photonsPass envFar es0 worldC2far =
      some ({ worldC2far with photons := [Photon.integrate photonC2b] }, es0, [photonC2b]) := by
    rw [photonsPass]
    have e0 : worldC2far.portals = portalsRing := rfl
    have e1 : worldC2far.photons = [photonC2b] := rfl
    rw [e0, e1]
    have elen : ([photonC2b] : List Photon).length = 0 + 1 := rfl
    rw [elen]
    rw [photonsForEach]
    have hget : ([photonC2b] : List Photon).get? 0 = some photonC2b := rfl
    rw [hget]
    dsimp only
    rw [hupd]
    dsimp only
    simp only [Bool.false_eq_true, if_false]
    have hset : ([photonC2b] : List Photon).set 0 (Photon.integrate photonC2b) =
        [Photon.integrate photonC2b] := rfl
    rw [hset]
    rw [photonsForEach]
    rfl
  refine ⟨hpass, ?_⟩
  exact photons_pass_no_removal_exact envFar es0 worldC2far _ hpass rfl

/-- C2 counterexample: with two photons and no portals, the first photon's
self-removal (its life cap is already reached) makes the pass skip the
second photon entirely that frame: the final collection still contains
`photonC2b` (unvisited, its fields untouched), while the list of photons
that were updated and drawn is exactly `[photonC2a]`. -/
theorem photons_pass_skips_successor :
    photonsPass env0 es0 worldC2 =
      some ({ worldC2 with photons := [photonC2b] }, es0, [photonC2a]) ∧
    photonC2b ≠ photonC2a := by
  constructor
  · have hrem : photonRemoved env0 (Photon.integrate photonC2a) = true := by
      simp [photonRemoved, Photon.integrate, photonC2a, env0]
    rw [photonsPass]
    have e0 : worldC2.portals = [] := rfl
    have e1 : worldC2.photons = [photonC2a, photonC2b] := rfl
    rw [e0, e1]
    have elen : ([photonC2a, photonC2b] : List Photon).length = 0 + 1 + 1 := rfl
    rw [elen]
    rw [photonsForEach]
    have hget0 : ([photonC2a, photonC2b] : List Photon).get? 0 = some photonC2a := rfl
    rw [hget0]
    dsimp only
    rw [photon_update_no_portals env0 es0 photonC2a, hrem]
    dsimp only
    simp only [if_true]
    have herase : ([photonC2a, photonC2b] : List Photon).eraseIdx 0 = [photonC2b] := rfl
    rw [herase]
    rw [photonsForEach]
    have hget1 : ([photonC2b] : List Photon).get? 1 = none := rfl
    rw [hget1]
    dsimp only
    rw [photonsForEach]
    rfl
  · intro h
    have : photonC2b.life = photonC2a.life := by rw [h]
    simp [photonC2a, photonC2b] at this

theorem snakeAtomsLoop_count (env : Env) (newHead : ℚ × ℚ) :
    ∀ (atoms : List Atom) (s : Snake) (ph : List Photon) (bh : List BlackHole) (es : EnvSt)
      (out : List Atom × Snake × List Photon × List BlackHole × EnvSt),
      snakeAtomsLoop env newHead atoms s ph bh es = some out →
      out.2.2.2.1.length + specCount atoms ≤ bh.length + specCount out.1 := by
  intro atoms
  induction atoms with
  | nil =>
    intro s ph bh es out h
    rw [snakeAtomsLoop] at h
    simp only [Option.some.injEq] at h
    rw [← h]
  | cons a rest ih =>
    intro s ph bh es out h
    rw [snakeAtomsLoop] at h
    split at h
    · rename_i hcond
      cases hg : Snake.grow s a.type with
      | none => rw [hg] at h; simp at h
      | some s1 =>
        rw [hg] at h
        simp only [Option.map_eq_some'] at h
        obtain ⟨out', hrec, hout⟩ := h
        have IH := ih _ _ _ _ _ hrec
        subst hout
        have h1 : specCount (a :: rest) = specCount rest := by
          simp [specCount, List.countP_cons, hcond.1]
        have h2 : specCount ((Atom.disintegrate env (nextNow env es).2 (nextNow env es).1 a).1
              :: out'.1) =
            specCount out'.1 + (if a.type = AtomType.special then 1 else 0) := by
          by_cases hsp : a.type = AtomType.special <;>
            simp [specCount, List.countP_cons, Atom.disintegrate, hsp]
        have h3 : (bh ++ (Atom.disintegrate env (nextNow env es).2 (nextNow env es).1 a).2.2.1).length =
            bh.length + (if a.type = AtomType.special then 1 else 0) := by
          by_cases hsp : a.type = AtomType.special <;>
            simp [Atom.disintegrate, hsp]
        rw [h3] at IH
        rw [h1, h2]
        by_cases hsp : a.type = AtomType.special <;> simp [hsp] at IH ⊢ <;> omega
    · simp only [Option.map_eq_some'] at h
      obtain ⟨out', hrec, hout⟩ := h
      have IH := ih _ _ _ _ _ hrec
      subst hout
      simp only [specCount, List.countP_cons] at IH ⊢
      omega

theorem snake_update_count {env : Env} {es : EnvSt} {s : Snake} {w : World}
    {s' : Snake} {w' : World} {es' : EnvSt}
    (h : Snake.update env es s w = some (s', w', es')) :
    w'.blackHoles.length + specCount w.atoms ≤ w.blackHoles.length + specCount w'.atoms := by
  rw [Snake.update] at h
  cases hpos : s.positions with
  | nil => rw [hpos] at h; simp at h
  | cons head tail =>
    rw [hpos] at h
    dsimp only at h
    cases hA : snakeAtomsLoop env (snakeNewHead env (snakeSteer env es s w.atoms head).1 head)
        w.atoms (snakeSteer env es s w.atoms head).1 w.photons w.blackHoles
        (snakeSteer env es s w.atoms head).2 with
    | none => rw [hA] at h; simp at h
    | some q =>
      obtain ⟨atoms', s3, photons', blackHoles', esB⟩ := q
      rw [hA] at h
      dsimp only at h
      cases hP : snakePortalLoop env w.portals w.portals
          (snakeNewHead env (snakeSteer env es s w.atoms head).1 head) esB with
      | none => rw [hP] at h; simp at h
      | some r =>
        obtain ⟨newHead', esC⟩ := r
        rw [hP] at h
        dsimp only at h
        simp only [Option.some.injEq, Prod.mk.injEq] at h
        obtain ⟨_h1, h2, _h3⟩ := h
        have hc := snakeAtomsLoop_count env
          (snakeNewHead env (snakeSteer env es s w.atoms head).1 head) w.atoms
          (snakeSteer env es s w.atoms head).1 w.photons w.blackHoles
          (snakeSteer env es s w.atoms head).2 _ hA
        rw [← h2]
        exact hc

theorem snakesPass_count (env : Env) :
    ∀ (snakes : List Snake) (w : World) (es : EnvSt) (out : List Snake × World × EnvSt),
      snakesPass env snakes w es = some out →
      out.2.1.blackHoles.length + specCount w.atoms ≤
        w.blackHoles.length + specCount out.2.1.atoms := by
  intro snakes
  induction snakes with
  | nil =>
    intro w es out h
    rw [snakesPass] at h
    simp only [Option.some.injEq] at h
    rw [← h]
  | cons s rest ih =>
    intro w es out h
    rw [snakesPass] at h
    cases hu : Snake.update env es s w with
    | none => rw [hu] at h; simp at h
    | some trip =>
      obtain ⟨s', w', es'⟩ := trip
      rw [hu] at h
      dsimp only at h
      simp only [Option.map_eq_some'] at h
      obtain ⟨out', hrec, hout⟩ := h
      have IH := ih _ _ _ hrec
      have hstep := snake_update_count hu
      subst hout
      have IH' : out'.2.1.blackHoles.length + specCount w'.atoms ≤
          w'.blackHoles.length + specCount out'.2.1.atoms := IH
      show out'.2.1.blackHoles.length + specCount w.atoms ≤
          w.blackHoles.length + specCount out'.2.1.atoms
      omega

theorem blackHolesPass_length (env : Env) :
    ∀ (bhs : List BlackHole) (ph : List Photon),
      (blackHolesPass env bhs ph).1.length = bhs.length := by
  intro bhs
  induction bhs with
  | nil => intro ph; rfl
  | cons b rest ih =>
    intro ph
    rw [blackHolesPass]
    simp [ih]

theorem specCount_map_draw (t : ℚ) : ∀ (l : List Atom),
    specCount l ≤ specCount (l.map fun a => (Atom.draw a t).1) := by
  intro l
  induction l with
  | nil => simp [specCount]
  | cons a rest ih =>
    have hkeep : (decide (a.type = AtomType.special ∧ a.state ≠ 0) = true) →
        (decide ((Atom.draw a t).1.type = AtomType.special ∧ (Atom.draw a t).1.state ≠ 0)
          = true) := by
      intro hp
      simp only [decide_eq_true_eq] at hp ⊢
      rw [Atom.draw]
      rcases hp with ⟨hsp, hst⟩
      by_cases h0 : a.state = 0
      · exact absurd h0 hst
      · by_cases h1 : a.state = 1
        · by_cases hgt : (t - a.startTime) / 1000 > 1
          · simp [h0, h1, hgt, hsp]
          · simp [h0, h1, hgt, hsp, hst]
        · simp [h0, h1, hsp, hst]
    simp only [specCount, List.countP_cons, List.map_cons] at ih ⊢
    by_cases hpa : decide (a.type = AtomType.special ∧ a.state ≠ 0) = true
    · have := hkeep hpa
      rw [hpa, this]
      omega
    · rw [Bool.not_eq_true] at hpa
      rw [hpa]
      simp only [if_false, Bool.false_eq_true]
      split <;> omega

theorem photonsPass_preserves (env : Env) (es : EnvSt) (w : World)
    (out : World × EnvSt × List Photon) (h : photonsPass env es w = some out) :
    out.1.atoms = w.atoms ∧ out.1.blackHoles = w.blackHoles := by
  rw [photonsPass] at h
  cases hF : photonsForEach env w.portals w.photons.length 0 w.photons es [] with
  | none => rw [hF] at h; simp at h
  | some r =>
    rw [hF] at h
    simp only [Option.map_some', Option.some.injEq] at h
    rw [← h]
    exact ⟨rfl, rfl⟩

theorem frame_count {env : Env} {es : EnvSt} {w : World} {snakes : List Snake}
    {out : World × List Snake × EnvSt} (h : frame env es w snakes = some out) :
    out.1.blackHoles.length + specCount w.atoms ≤
      w.blackHoles.length + specCount out.1.atoms := by
  rw [frame] at h
  dsimp only at h
  simp only [Option.bind_eq_some, Option.map_eq_some'] at h
  obtain ⟨q, hS, r, hP, hout⟩ := h
  subst hout
  have hq := snakesPass_count env snakes _ _ _ hS
  have hpp := photonsPass_preserves env _ _ _ hP
  have e2 : specCount w.atoms ≤
      specCount (w.atoms.map fun a => (Atom.draw a (nextNow env es).1).1) :=
    specCount_map_draw _ _
  have e3 : (blackHolesPass env w.blackHoles w.photons).1.length = w.blackHoles.length :=
    blackHolesPass_length env _ _
  have hq' : q.2.1.blackHoles.length +
      specCount (w.atoms.map fun a => (Atom.draw a (nextNow env es).1).1) ≤
      (blackHolesPass env w.blackHoles w.photons).1.length + specCount q.2.1.atoms := hq
  show r.1.blackHoles.length + specCount w.atoms ≤
      w.blackHoles.length + specCount r.1.atoms
  rw [hpp.1, hpp.2]
  omega

/-- C10: an atom's `disintegrate` flips its state from alive (0) to
disintegrating (1), so the snake collision check (which requires state 0)
can trigger it at most once per atom over the whole run; consequently the
invariant "the number of black holes never exceeds the number of special
atoms that are no longer alive" holds at `init` and is preserved by every
frame, and under it the black-hole count never exceeds the total number of
special atoms. -/
theorem blackHoles_bounded :
    (∀ (env : Env) (es : EnvSt) (t : ℚ) (a : Atom), a.state = 0 →
      (Atom.disintegrate env es t a).1.state = 1) ∧
    (∀ (env : Env) (es : EnvSt), bhInv (initWorld env es).1) ∧
    (∀ (env : Env) (es : EnvSt) (w : World) (snakes : List Snake)
      (out : World × List Snake × EnvSt),
      bhInv w → frame env es w snakes = some out →
      bhInv out.1 ∧ out.1.blackHoles.length ≤
        out.1.atoms.countP fun a => decide (a.type = AtomType.special)) := by
  refine ⟨?_, ?_, ?_⟩
  · intro env es t a _h
    rfl
  · intro env es
    have hempty : (initWorld env es).1.blackHoles = [] := rfl
    rw [bhInv, hempty]
    simp
  · intro env es w snakes out hinv hframe
    have hc := frame_count hframe
    rw [bhInv] at hinv
    have hinv' : bhInv out.1 := by
      rw [bhInv]
      omega
    refine ⟨hinv', ?_⟩
    have hmono : specCount out.1.atoms ≤
        out.1.atoms.countP fun a => decide (a.type = AtomType.special) := by
      rw [specCount]
      apply List.countP_mono_left
      intro a _ hpa
      simp only [decide_eq_true_eq] at hpa ⊢
      exact hpa.1
    rw [bhInv] at hinv'
    omega

/-- C10 witness: a frame on empty registries completes, and the invariant
holds before and after. -/
theorem blackHoles_bounded_witness :
    frame env0 es0 emptyWorld [] = some (emptyWorld, [], (⟨0, 1⟩ : EnvSt)) ∧
    bhInv emptyWorld ∧
    emptyWorld.blackHoles.length ≤
      emptyWorld.atoms.countP fun a => decide (a.type = AtomType.special) := by
  have hframe : frame env0 es0 emptyWorld [] = some (emptyWorld, [], (⟨0, 1⟩ : EnvSt)) := rfl
  have h0 : bhInv emptyWorld := by rw [bhInv]; simp [emptyWorld, specCount]
  have h := blackHoles_bounded.2.2 env0 es0 emptyWorld [] _ h0 hframe
  exact ⟨hframe, h0, by simpa using h.2⟩
